import Mathlib

/-!
Verification of the storage module of the berg workout tracker
(`src/unnamed/part_000`, the current version of `src/services/storage.ts`).

The module persists one `AppData` document (two per-user exercise catalogs
plus a list of workout logs).  `migrateData` normalizes arbitrary parsed
JSON into the current document shape, `loadData` implements the
remote → local → seed fallback chain, and the domain helpers
(`saveExercise`, `deleteExercise`, `addSet`, `deleteSet`,
`getLogsForComparison`) mutate or query the document.

Two embeddings are used, mirroring the source:
* a small JavaScript value model (`JSValue`) for `migrateData`, which the
  source applies to untrusted `JSON.parse` output typed `any`;
* a typed `AppData` model for the domain helpers, which the source applies
  to documents already in the current shape.
-/

/-- The only exception kind the modelled code can raise: a JavaScript
`TypeError` (property access on `null`/`undefined`, calling `.map` on a
non-array, …). -/
inductive JSError where
  | typeError
deriving Repr, DecidableEq

/-- A JavaScript (JSON-plus-`undefined`) value.  Numbers are modelled as
integers: the migration code only ever compares lengths and builds ids, so
no fractional arithmetic occurs. -/
inductive JSValue where
  | null
  | undefined
  | bool (b : Bool)
  | num (n : Int)
  | str (s : String)
  | arr (elems : List JSValue)
  | obj (fields : List (String × JSValue))
deriving Repr

namespace JSValue

/-- JavaScript truthiness. -/
def truthy : JSValue → Bool
  | .null => false
  | .undefined => false
  | .bool b => b
  | .num n => n != 0
  | .str s => s != ""
  | .arr _ => true
  | .obj _ => true

/-- Field lookup in an object's (ordered) field list; an absent field reads
as `undefined`. -/
def lookupField : List (String × JSValue) → String → JSValue
  | [], _ => .undefined
  | (k, v) :: rest, key => if k = key then v else lookupField rest key

/-- Property read `v.k` on a value that is not `null`/`undefined` (on those
JavaScript throws; callers guard that case explicitly).  Arrays and strings
expose `length`; reading any other property of a primitive gives
`undefined`. -/
def getProp : JSValue → String → JSValue
  | .obj fs, key => lookupField fs key
  | .arr xs, key => if key = "length" then .num xs.length else .undefined
  | .str s, key => if key = "length" then .num s.length else .undefined
  | _, _ => .undefined

/-- JavaScript `a || b`. -/
def jsOr (a b : JSValue) : JSValue :=
  if truthy a then a else b

/-- JavaScript `v.length > 0` for a non-null `v`: true exactly when the
`length` property reads as a positive number (`undefined > 0` and
comparisons against non-numbers are false). -/
def lengthGt0 (v : JSValue) : Bool :=
  match getProp v "length" with
  | .num n => 0 < n
  | _ => false

/-- Object spread update `{...fs, key: v}`: overwrite `key` in place when present, else append. -/
def setField : List (String × JSValue) → String → JSValue → List (String × JSValue)
  | [], key, v => [(key, v)]
  | (k, w) :: rest, key, v =>
    if k = key then (key, v) :: rest else (k, w) :: setField rest key v

/-- The object literal `{...e, id: idv}`.  Spreading a primitive
contributes no fields. -/
def spreadSetId (e : JSValue) (idv : JSValue) : JSValue :=
  match e with
  | .obj fs => .obj (setField fs "id" idv)
  | _ => .obj [("id", idv)]

/-- String conversion of a value appearing inside an array being joined:
`null` and `undefined` print as the empty string there. -/
def jsElemStr : JSValue → String
  | .null => ""
  | .undefined => ""
  | .bool b => cond b "true" "false"
  | .num n => toString n
  | .str s => s
  | .obj _ => "[object Object]"
  | .arr xs => String.intercalate "," (xs.attach.map fun x => jsElemStr x.1)
decreasing_by
  have h1 := List.sizeOf_lt_of_mem x.2
  simp only [JSValue.arr.sizeOf_spec]
  omega

/-- Template-literal string conversion `${v}`. -/
def jsToString : JSValue → String
  | .null => "null"
  | .undefined => "undefined"
  | v => jsElemStr v

end JSValue

open JSValue

/-- One shared legacy exercise, copied for one user: the object literal
spreading `e` with its `id` replaced by the template string prefixing
`pre` to `e.id`.  Reading `e.id` throws when `e` is `null`/`undefined`. -/
def prefixedCopy (pre : String) (e : JSValue) : Except JSError JSValue :=
  match e with
  | .null => .error .typeError
  | .undefined => .error .typeError
  | _ => .ok (spreadSetId e (.str (pre ++ jsToString (getProp e "id"))))

/-- Left-to-right effectful map: the callback is applied in array order and
the first throw propagates, as JavaScript `Array.prototype.map` does. -/
def mapExcept (f : JSValue → Except JSError JSValue) : List JSValue → Except JSError (List JSValue)
  | [] => .ok []
  | x :: xs =>
    match f x with
    | .error e => .error e
    | .ok y =>
      match mapExcept f xs with
      | .error e => .error e
      | .ok ys => .ok (y :: ys)

/-- Source expression `sharedExercises.map(e => ({...e, id: ...}))`: calling `.map` on a
non-array throws. -/
def mapCopies (pre : String) (v : JSValue) : Except JSError (List JSValue) :=
  match v with
  | .arr xs => mapExcept (prefixedCopy pre) xs
  | _ => .error .typeError

/-- Body of `migrateData` once the input is known not to be
`null`/`undefined` (on those every property read throws). -/
def migrateBody (data : JSValue) : Except JSError JSValue :=
  -- const adamExercises = data.adamExercises || [];  (etc.)
  let adamExercises := jsOr (getProp data "adamExercises") (.arr [])
  let eliaExercises := jsOr (getProp data "eliaExercises") (.arr [])
  let logs := jsOr (getProp data "logs") (.arr [])
  -- if ((adamExercises.length > 0 || eliaExercises.length > 0) || !data.exercises)
  if lengthGt0 adamExercises || lengthGt0 eliaExercises
      || !(truthy (getProp data "exercises")) then
    .ok (.obj [("adamExercises", adamExercises),
               ("eliaExercises", eliaExercises),
               ("logs", logs)])
  else
    -- const sharedExercises = data.exercises || [];
    let sharedExercises := jsOr (getProp data "exercises") (.arr [])
    match mapCopies "adam_" sharedExercises, mapCopies "elia_" sharedExercises with
    | .ok adamMapped, .ok eliaMapped =>
      .ok (.obj [("adamExercises", .arr adamMapped),
                 ("eliaExercises", .arr eliaMapped),
                 ("logs", logs)])
    | .error e, _ => .error e
    | _, .error e => .error e

/-- Function `migrateData` from `src/unnamed/part_000` lines 74–96.  Normalizes raw
parsed JSON into the current per-user document shape.  Property access on
`null`/`undefined` input throws, exactly as in JavaScript. -/
def migrateData (data : JSValue) : Except JSError JSValue :=
  match data with
  | .null => .error .typeError   -- `data.adamExercises` throws on null
  | .undefined => .error .typeError  -- … and on undefined
  | _ => migrateBody data

/-! ### Typed document model (`src/types`, as used by the storage module) -/

/-- The two fixed users. -/
inductive User where
  | Adam
  | Elia
deriving Repr, DecidableEq

/-- Record `Exercise: {id, name, category}`. -/
structure Exercise where
  id : String
  name : String
  category : String
deriving Repr, DecidableEq

/-- Record `WorkoutSet: {id, weight, reps, timestamp}`. -/
structure WorkoutSet where
  id : String
  weight : Int
  reps : Int
  timestamp : Int
deriving Repr, DecidableEq

/-- Record `WorkoutLog: {id, exerciseId, user, date, sets}`. -/
structure WorkoutLog where
  id : String
  exerciseId : String
  user : User
  date : String
  sets : List WorkoutSet
deriving Repr, DecidableEq

/-- Record `AppData: {adamExercises, eliaExercises, logs}`. -/
structure AppData where
  adamExercises : List Exercise
  eliaExercises : List Exercise
  logs : List WorkoutLog
deriving Repr, DecidableEq

/-- Record `StorageConfig` as read from `CONFIG_KEY`. -/
structure StorageConfig where
  owner : String
  repo : String
  path : String
  githubToken : String
deriving Repr, DecidableEq

/-- Constant `DEFAULT_EXERCISES` (lines 7–12). -/
def DEFAULT_EXERCISES : List Exercise :=
  [ { id := "ex_1", name := "Bench Press", category := "Chest" },
    { id := "ex_2", name := "Squat", category := "Legs" },
    { id := "ex_3", name := "Deadlift", category := "Back" },
    { id := "ex_4", name := "Overhead Press", category := "Shoulders" } ]

/-- Constant `SEED_DATA` (lines 14–18): the default exercises duplicated per user
with user-namespaced ids, and no logs. -/
def SEED_DATA : AppData :=
  { adamExercises := DEFAULT_EXERCISES.map fun e => { e with id := "adam_" ++ e.id },
    eliaExercises := DEFAULT_EXERCISES.map fun e => { e with id := "elia_" ++ e.id },
    logs := [] }

/-! ### JSON encoding of the typed model

`loadData`'s remote and local branches produce raw migrated JSON, while its
seed branch produces the typed `SEED_DATA`; the source uses a single
untyped value for both, so the model injects `AppData` into `JSValue`. -/

/-- The user field as serialized in a `WorkoutLog`. -/
def User.toJS : User → JSValue
  | .Adam => .str "Adam"
  | .Elia => .str "Elia"

def Exercise.toJS (e : Exercise) : JSValue :=
  .obj [("id", .str e.id), ("name", .str e.name), ("category", .str e.category)]

def WorkoutSet.toJS (s : WorkoutSet) : JSValue :=
  .obj [("id", .str s.id), ("weight", .num s.weight),
        ("reps", .num s.reps), ("timestamp", .num s.timestamp)]

def WorkoutLog.toJS (l : WorkoutLog) : JSValue :=
  .obj [("id", .str l.id), ("exerciseId", .str l.exerciseId),
        ("user", l.user.toJS), ("date", .str l.date),
        ("sets", .arr (l.sets.map WorkoutSet.toJS))]

def AppData.toJS (d : AppData) : JSValue :=
  .obj [("adamExercises", .arr (d.adamExercises.map Exercise.toJS)),
        ("eliaExercises", .arr (d.eliaExercises.map Exercise.toJS)),
        ("logs", .arr (d.logs.map WorkoutLog.toJS))]

/-! ### Persistence coordinator (`loadData`, lines 98–127)

The coordinator's externally visible state: the stored config
(`CONFIG_KEY`), the parsed content of the local durable store
(`STORAGE_KEY`; `none` when the key is absent), and the in-memory
`dataCache`.  The remote backend is passed in as a function from the
config to either a parsed document or a failure (any network, decode or
parse error). -/
structure StorageState where
  config : Option StorageConfig
  localData : Option JSValue
  dataCache : Option JSValue
deriving Repr

/-- Local-cache fallback of `loadData` (steps 2 and 3, lines 116–126): a
present local copy is migrated (errors here propagate — this path has no
try/catch), otherwise the seed document is returned and cached without
being written to the local store. -/
def loadLocal (st : StorageState) : Except JSError (JSValue × StorageState) :=
  match st.localData with
  | some parsed =>
    (migrateData parsed).map fun doc => (doc, { st with dataCache := some doc })
  | none =>
    .ok (SEED_DATA.toJS, { st with dataCache := some SEED_DATA.toJS })

/-- Function `loadData` (lines 98–127).  With a config present the remote document
is fetched, migrated, cached and mirrored to the local store; any failure
in that try-block falls back to `loadLocal`. -/
def loadData (fetchRemote : StorageConfig → Except JSError JSValue)
    (st : StorageState) : Except JSError (JSValue × StorageState) :=
  match st.config with
  | some config =>
    match (fetchRemote config).bind migrateData with
    | .ok doc => .ok (doc, { st with dataCache := some doc, localData := some doc })
    | .error _ => loadLocal st
  | none => loadLocal st

/-! ### Domain operations (pure mutation cores)

Every domain helper is `load → mutate in place → save`; the mutations
below are their pure cores on the typed document. -/

/-- Replace the first element satisfying `p` by its image under `f`: the
in-place update of the element JavaScript `find`/`findIndex` locates. -/
def updateFirst (p : α → Bool) (f : α → α) : List α → List α
  | [] => []
  | x :: xs => if p x then f x :: xs else x :: updateFirst p f xs

/-- Function `getExercisesForUser` (lines 166–169), pure core. -/
def getExercisesForUser (d : AppData) (user : User) : List Exercise :=
  match user with
  | .Adam => d.adamExercises
  | .Elia => d.eliaExercises

/-- Function `saveExercise` (lines 171–178), pure core: replace the exercise with a
matching id in the named user's catalog, else append. -/
def saveExercise (d : AppData) (exercise : Exercise) (user : User) : AppData :=
  let upsert := fun (exercises : List Exercise) =>
    if exercises.any fun e => e.id == exercise.id then
      updateFirst (fun e => e.id == exercise.id) (fun _ => exercise) exercises
    else exercises ++ [exercise]
  match user with
  | .Adam => { d with adamExercises := upsert d.adamExercises }
  | .Elia => { d with eliaExercises := upsert d.eliaExercises }

/-- Function `deleteExercise` (lines 180–188), pure core: filter the named user's
catalog by id; logs are not touched. -/
def deleteExercise (d : AppData) (id : String) (user : User) : AppData :=
  match user with
  | .Adam => { d with adamExercises := d.adamExercises.filter fun e => e.id != id }
  | .Elia => { d with eliaExercises := d.eliaExercises.filter fun e => e.id != id }

/-- Function `getLogsForComparison` (lines 198–211), pure core: resolve the first
exercise with the queried name for each user, collect the defined ids
(JavaScript `filter(Boolean)` also drops an empty-string id), and keep the
logs whose `exerciseId` is among them. -/
def getLogsForComparison (d : AppData) (exerciseName : String) : List WorkoutLog :=
  let adamExercise := d.adamExercises.find? fun e => e.name == exerciseName
  let eliaExercise := d.eliaExercises.find? fun e => e.name == exerciseName
  let matchingIds :=
    ([adamExercise.map Exercise.id, eliaExercise.map Exercise.id].filterMap fun x => x).filter
      fun s => s != ""
  d.logs.filter fun l => matchingIds.contains l.exerciseId

/-- The log key `addSet` searches by:
`l.user === user && l.exerciseId === exerciseId && l.date === dateStr`. -/
def logKey (user : User) (exerciseId dateStr : String) (l : WorkoutLog) : Bool :=
  l.user == user && l.exerciseId == exerciseId && l.date == dateStr

/-- Function `addSet` (lines 218–242), pure core.  The generated identifiers and
timestamp (`Date.now()`/`Math.random()`) enter as parameters `newSetId`,
`newLogId`, `now`.  If a log for (user, exerciseId, date) is found the new
set is pushed onto it, else a new single-set log is pushed. -/
def addSet (d : AppData) (user : User) (exerciseId : String) (weight reps : Int)
    (dateStr : String) (newSetId newLogId : String) (now : Int) : AppData :=
  let newSet : WorkoutSet :=
    { id := newSetId, weight := weight, reps := reps, timestamp := now }
  if d.logs.any (logKey user exerciseId dateStr) then
    let newLogs := updateFirst (logKey user exerciseId dateStr)
      (fun l => { l with sets := l.sets ++ [newSet] }) d.logs
    { d with logs := newLogs }
  else
    let newLog : WorkoutLog :=
      { id := newLogId, exerciseId := exerciseId, user := user,
        date := dateStr, sets := [newSet] }
    { d with logs := d.logs ++ [newLog] }

/-- Function `deleteSet` (lines 244–258), pure core: locate the first log with the
given id (no-op when absent), filter the named set out of it, and when its
set list becomes empty drop every log with that id from the document. -/
def deleteSet (d : AppData) (logId setId : String) : AppData :=
  match d.logs.find? fun l => l.id == logId with
  | none => d
  | some log =>
    let newSets := log.sets.filter fun s => s.id != setId
    let logs1 := updateFirst (fun l => l.id == logId)
      (fun l => { l with sets := newSets }) d.logs
    if newSets.isEmpty then
      { d with logs := logs1.filter fun l => l.id != logId }
    else
      { d with logs := logs1 }

/-! ### Concrete documents used by witnesses and counterexamples -/

/-- A raw document with a nonempty `adamExercises` list *and* a legacy
`exercises` list, but no `eliaExercises` field. -/
def mixedShapeInput : JSValue :=
  .obj [("adamExercises",
          .arr [.obj [("id", .str "a1"), ("name", .str "Row"), ("category", .str "Back")]]),
        ("exercises",
          .arr [.obj [("id", .str "ex_1"), ("name", .str "Bench"), ("category", .str "Chest")]])]

/-- A raw document in the current shape. -/
def currentShapeInput : JSValue :=
  .obj [("adamExercises",
          .arr [.obj [("id", .str "a1"), ("name", .str "Row"), ("category", .str "Back")]]),
        ("eliaExercises", .arr [])]

/-- A raw legacy document: one shared exercise list, no per-user lists. -/
def legacyInput : JSValue :=
  .obj [("exercises",
          .arr [.obj [("id", .str "ex_1"), ("name", .str "Bench Press"),
                      ("category", .str "Chest")]]),
        ("logs", .arr [])]

/-- A typed document whose only exercise carries the empty string as id. -/
def emptyIdDoc : AppData :=
  { adamExercises := [{ id := "", name := "Squat", category := "Legs" }],
    eliaExercises := [],
    logs := [{ id := "l1", exerciseId := "", user := .Adam, date := "2024-01-01",
               sets := [{ id := "s1", weight := 100, reps := 5, timestamp := 0 }] }] }

/-- A typed document with one single-set log, for the `deleteSet` witness. -/
def oneLogDoc : AppData :=
  { adamExercises := [], eliaExercises := [],
    logs := [{ id := "l1", exerciseId := "adam_ex_1", user := .Adam, date := "2024-01-01",
               sets := [{ id := "s1", weight := 100, reps := 5, timestamp := 0 }] }] }

/-- A typed document where both users track "Squat" under their own ids
and one user also tracks an exercise of a different name. -/
def compareDoc : AppData :=
  { adamExercises := [{ id := "adam_sq", name := "Squat", category := "Legs" }],
    eliaExercises := [{ id := "elia_sq", name := "Squat", category := "Legs" },
                      { id := "elia_bp", name := "Bench", category := "Chest" }],
    logs := [{ id := "la", exerciseId := "adam_sq", user := .Adam, date := "2024-01-01",
               sets := [{ id := "sa", weight := 100, reps := 5, timestamp := 0 }] },
             { id := "le", exerciseId := "elia_sq", user := .Elia, date := "2024-01-02",
               sets := [{ id := "se", weight := 80, reps := 8, timestamp := 1 }] },
             { id := "lb", exerciseId := "elia_bp", user := .Elia, date := "2024-01-02",
               sets := [{ id := "sb", weight := 60, reps := 10, timestamp := 2 }] }] }

/-! ### Supporting lemmas -/

theorem truthy_jsOr_arr (v : JSValue) (xs : List JSValue) :
    truthy (jsOr v (.arr xs)) = true := by
  unfold jsOr
  split
  · assumption
  · rfl

theorem lookupField_setField_self (fs : List (String × JSValue)) (key : String) (v : JSValue) :
    lookupField (setField fs key v) key = v := by
  induction fs with
  | nil => simp [setField, lookupField]
  | cons kv rest ih =>
    obtain ⟨k, w⟩ := kv
    by_cases hk : k = key
    · simp [setField, hk, lookupField]
    · simp [setField, hk, lookupField, ih]

theorem lookupField_setField_ne (fs : List (String × JSValue)) (key k' : String) (v : JSValue)
    (h : k' ≠ key) :
    lookupField (setField fs key v) k' = lookupField fs k' := by
  have h' : key ≠ k' := Ne.symm h
  induction fs with
  | nil => simp [setField, lookupField, h']
  | cons kv rest ih =>
    obtain ⟨k, w⟩ := kv
    by_cases hk : k = key
    · subst hk
      simp [setField, lookupField, h']
    · simp [setField, hk, lookupField, ih]

theorem mapExcept_ok_of_obj (pre : String) (exs : List JSValue)
    (h : ∀ v ∈ exs, ∃ efs, v = .obj efs) :
    mapExcept (prefixedCopy pre) exs =
      .ok (exs.map fun e => spreadSetId e (.str (pre ++ jsToString (getProp e "id")))) := by
  induction exs with
  | nil => rfl
  | cons x xs ih =>
    obtain ⟨efs, rfl⟩ := h x (List.mem_cons_self x xs)
    have hrest := ih fun v hv => h v (List.mem_cons_of_mem _ hv)
    simp [mapExcept, prefixedCopy, hrest]

theorem truthy_of_undefined : truthy .undefined = false := rfl

theorem migrateBody_ok_shape {x v : JSValue} (h : migrateBody x = .ok v) :
    ∃ A E L, v = .obj [("adamExercises", A), ("eliaExercises", E), ("logs", L)] ∧
      truthy A = true ∧ truthy E = true ∧ truthy L = true := by
  unfold migrateBody at h
  simp only [] at h
  split at h
  · injection h with h'
    exact ⟨_, _, _, h'.symm, truthy_jsOr_arr _ _, truthy_jsOr_arr _ _, truthy_jsOr_arr _ _⟩
  · split at h
    · injection h with h'
      exact ⟨_, _, _, h'.symm, rfl, rfl, truthy_jsOr_arr _ _⟩
    · exact absurd h (by simp)
    · exact absurd h (by simp)

theorem migrateData_ok_shape {x v : JSValue} (h : migrateData x = .ok v) :
    ∃ A E L, v = .obj [("adamExercises", A), ("eliaExercises", E), ("logs", L)] ∧
      truthy A = true ∧ truthy E = true ∧ truthy L = true := by
  cases x with
  | null => simp [migrateData] at h
  | undefined => simp [migrateData] at h
  | bool b => simp only [migrateData] at h; exact migrateBody_ok_shape h
  | num n => simp only [migrateData] at h; exact migrateBody_ok_shape h
  | str s => simp only [migrateData] at h; exact migrateBody_ok_shape h
  | arr xs => simp only [migrateData] at h; exact migrateBody_ok_shape h
  | obj fs => simp only [migrateData] at h; exact migrateBody_ok_shape h

theorem migrateData_shape_fixed (A E L : JSValue)
    (hA : truthy A = true) (hE : truthy E = true) (hL : truthy L = true) :
    migrateData (.obj [("adamExercises", A), ("eliaExercises", E), ("logs", L)]) =
      .ok (.obj [("adamExercises", A), ("eliaExercises", E), ("logs", L)]) := by
  simp only [migrateData]
  unfold migrateBody
  simp [getProp, lookupField, jsOr, hA, hE, hL, truthy_of_undefined]

theorem prefix_copies_distinct (s : String) : ("adam_" ++ s) ≠ ("elia_" ++ s) := by
  intro h
  have h2 := congrArg String.data h
  rw [String.data_append, String.data_append] at h2
  rw [show ("adam_" : String).data = ['a', 'd', 'a', 'm', '_'] from rfl,
      show ("elia_" : String).data = ['e', 'l', 'i', 'a', '_'] from rfl] at h2
  simp at h2

/-! ### Migration claims -/

/-- C1: `migrateData` is claimed pure and total; evaluating the code at the
failing input `null` shows it instead throws a `TypeError`
(`data.adamExercises` reads a property of `null`), contradicting both the
spec ("it never throws; worst case it returns an empty document") and the
code's own comment ("Ensure we have valid arrays even if data is
malformed"). -/
theorem migrateData_null_throws : migrateData .null = .error .typeError := rfl

/-- C6: migration is idempotent: composing `migrateData` with itself (in
the Kleisli sense, so a throwing input throws identically on both sides)
equals a single application.  In particular `migrateData x = .ok v` implies
`migrateData v = .ok v`. -/
theorem migrateData_idempotent (x : JSValue) :
    (migrateData x).bind migrateData = migrateData x := by
  cases h : migrateData x with
  | error e => rfl
  | ok v =>
    obtain ⟨A, E, L, rfl, hA, hE, hL⟩ := migrateData_ok_shape h
    simp [Except.bind, migrateData_shape_fixed A E L hA hE hL]

/-- C2 (amended): on every input in the current shape — both per-user
sequences present as arrays (even empty), no legacy `exercises` field —
`migrateData` passes the per-user sequences through and fills a missing
`logs` field with the empty sequence.  (The pass-through branch itself is
*not* taken exactly under this condition; see the counterexample.) -/
theorem migrateData_passthrough_current_shape (fs : List (String × JSValue))
    (as es : List JSValue) (L : JSValue)
    (hA : lookupField fs "adamExercises" = .arr as)
    (hE : lookupField fs "eliaExercises" = .arr es)
    (hX : lookupField fs "exercises" = .undefined)
    (hL : lookupField fs "logs" = L)
    (hLs : L = .undefined ∨ ∃ ls, L = .arr ls) :
    migrateData (.obj fs) =
      .ok (.obj [("adamExercises", .arr as), ("eliaExercises", .arr es),
                 ("logs", match L with | .undefined => .arr [] | _ => L)]) := by
  simp only [migrateData]
  unfold migrateBody
  rcases hLs with rfl | ⟨ls, rfl⟩ <;>
    simp [getProp, hA, hE, hX, hL, jsOr, truthy, lengthGt0]

/-- Witness for C2's amended theorem at a concrete current-shape input. -/
theorem migrateData_passthrough_current_shape_witness :
    migrateData currentShapeInput =
      .ok (.obj [("adamExercises",
                   .arr [.obj [("id", .str "a1"), ("name", .str "Row"),
                               ("category", .str "Back")]]),
                 ("eliaExercises", .arr []),
                 ("logs", .arr [])]) := by
  have h := migrateData_passthrough_current_shape
    [("adamExercises",
       .arr [.obj [("id", .str "a1"), ("name", .str "Row"), ("category", .str "Back")]]),
     ("eliaExercises", .arr [])]
    [.obj [("id", .str "a1"), ("name", .str "Row"), ("category", .str "Back")]]
    [] .undefined rfl rfl rfl rfl (Or.inl rfl)
  exact h

/-- C2 counterexample: the claim says the pass-through branch is taken
*exactly* when both per-user sequences are present and no legacy
`exercises` list exists.  `mixedShapeInput` has no `eliaExercises` field
and *does* carry a legacy `exercises` list — outside the claimed
condition — yet the result is the pass-through document: the legacy list
is dropped, nothing is split per user. -/
theorem migrateData_pass_branch_not_iff :
    migrateData mixedShapeInput =
      .ok (.obj [("adamExercises",
                   .arr [.obj [("id", .str "a1"), ("name", .str "Row"),
                               ("category", .str "Back")]]),
                 ("eliaExercises", .arr []),
                 ("logs", .arr [])]) := rfl

/-- C7: on every legacy-shape input (a shared `exercises` array, no
per-user lists) migration duplicates every shared exercise into both
per-user sequences; each copy's id is the respective user prefix glued to
the original id (deterministically, and the two prefixes make the two
copies' ids distinct), while every other field — in particular `name` and
`category` — is kept identical. -/
theorem migrateData_legacy_split (fs : List (String × JSValue)) (exs : List JSValue)
    (hA : lookupField fs "adamExercises" = .undefined)
    (hE : lookupField fs "eliaExercises" = .undefined)
    (hX : lookupField fs "exercises" = .arr exs)
    (hobj : ∀ v ∈ exs, ∃ efs, v = .obj efs) :
    (migrateData (.obj fs) =
      .ok (.obj [("adamExercises", .arr (exs.map fun e =>
                    spreadSetId e (.str ("adam_" ++ jsToString (getProp e "id"))))),
                 ("eliaExercises", .arr (exs.map fun e =>
                    spreadSetId e (.str ("elia_" ++ jsToString (getProp e "id"))))),
                 ("logs", jsOr (lookupField fs "logs") (.arr []))]))
    ∧ (∀ e ∈ exs, ∀ pre : String,
        getProp (spreadSetId e (.str (pre ++ jsToString (getProp e "id")))) "id"
          = .str (pre ++ jsToString (getProp e "id")))
    ∧ (∀ e ∈ exs, ∀ k, k ≠ "id" → ∀ pre : String,
        getProp (spreadSetId e (.str (pre ++ jsToString (getProp e "id")))) k
          = getProp e k)
    ∧ (∀ s : String, ("adam_" ++ s) ≠ ("elia_" ++ s)) := by
  refine ⟨?_, ?_, ?_, prefix_copies_distinct⟩
  · simp only [migrateData]
    unfold migrateBody
    have hmapA := mapExcept_ok_of_obj "adam_" exs hobj
    have hmapE := mapExcept_ok_of_obj "elia_" exs hobj
    simp [getProp, hA, hE, hX, jsOr, truthy, lengthGt0, mapCopies, hmapA, hmapE]
  · intro e he pre
    obtain ⟨efs, rfl⟩ := hobj e he
    simp [spreadSetId, getProp, lookupField_setField_self]
  · intro e he k hk pre
    obtain ⟨efs, rfl⟩ := hobj e he
    simp [spreadSetId, getProp, lookupField_setField_ne _ _ _ _ hk]

/-- Witness for C7 at a concrete one-exercise legacy document. -/
theorem migrateData_legacy_split_witness :
    migrateData legacyInput =
      .ok (.obj [("adamExercises",
                   .arr [.obj [("id", .str "adam_ex_1"), ("name", .str "Bench Press"),
                               ("category", .str "Chest")]]),
                 ("eliaExercises",
                   .arr [.obj [("id", .str "elia_ex_1"), ("name", .str "Bench Press"),
                               ("category", .str "Chest")]]),
                 ("logs", .arr [])])
    ∧ ("adam_" ++ "ex_1") ≠ ("elia_" ++ "ex_1") := by
  have h := migrateData_legacy_split
    [("exercises",
       .arr [.obj [("id", .str "ex_1"), ("name", .str "Bench Press"),
                   ("category", .str "Chest")]]),
     ("logs", .arr [])]
    [.obj [("id", .str "ex_1"), ("name", .str "Bench Press"), ("category", .str "Chest")]]
    rfl rfl rfl
    (by
      intro v hv
      rw [List.mem_singleton] at hv
      exact ⟨[("id", .str "ex_1"), ("name", .str "Bench Press"), ("category", .str "Chest")], hv⟩)
  refine ⟨?_, h.2.2.2 "ex_1"⟩
  have h1 := h.1
  simpa [spreadSetId, setField, getProp, lookupField, jsToString, jsElemStr, jsOr, truthy]
    using h1

/-! ### Coordinator claim -/

/-- C3: with no stored remote config and no local copy, `loadData` returns
the built-in seed document — exactly 4 exercises per user, every id
carrying the owning user's namespace prefix, zero logs — and caches it in
memory (`dataCache`), while the local durable store stays untouched
(`localData` remains `none`): the seed is not persisted by the load
itself. -/
theorem loadData_seed (fetchRemote : StorageConfig → Except JSError JSValue)
    (st : StorageState) (hc : st.config = none) (hl : st.localData = none) :
    loadData fetchRemote st =
      .ok (SEED_DATA.toJS,
           { config := none, localData := none, dataCache := some SEED_DATA.toJS })
    ∧ SEED_DATA.adamExercises.length = 4
    ∧ SEED_DATA.eliaExercises.length = 4
    ∧ SEED_DATA.adamExercises.map Exercise.id
        = ["adam_" ++ "ex_1", "adam_" ++ "ex_2", "adam_" ++ "ex_3", "adam_" ++ "ex_4"]
    ∧ SEED_DATA.eliaExercises.map Exercise.id
        = ["elia_" ++ "ex_1", "elia_" ++ "ex_2", "elia_" ++ "ex_3", "elia_" ++ "ex_4"]
    ∧ SEED_DATA.logs = [] := by
  obtain ⟨c, l, m⟩ := st
  simp only at hc hl
  subst hc; subst hl
  refine ⟨?_, by decide, by decide, by decide, by decide, rfl⟩
  simp [loadData, loadLocal]

/-- Witness for C3 at the empty starting state and an unreachable remote. -/
theorem loadData_seed_witness :
    loadData (fun _ => .error .typeError)
        { config := none, localData := none, dataCache := none } =
      .ok (SEED_DATA.toJS,
           { config := none, localData := none, dataCache := some SEED_DATA.toJS })
    ∧ SEED_DATA.adamExercises.length = 4 := by
  have h := loadData_seed (fun _ => .error .typeError)
    { config := none, localData := none, dataCache := none } rfl rfl
  exact ⟨h.1, h.2.1⟩

/-! ### List helpers for the domain operations -/

theorem updateFirst_of_first_match {α : Type} (p : α → Bool) (f : α → α)
    (pre : List α) (x : α) (post : List α)
    (hpre : ∀ a ∈ pre, p a = false) (hx : p x = true) :
    updateFirst p f (pre ++ x :: post) = pre ++ f x :: post := by
  induction pre with
  | nil => simp [updateFirst, hx]
  | cons a tl ih =>
    have ha := hpre a (List.mem_cons_self a tl)
    have htl := ih fun b hb => hpre b (List.mem_cons_of_mem _ hb)
    simp [updateFirst, ha, htl]

theorem find?_decomp {α : Type} {p : α → Bool} {l : List α} {x : α}
    (h : l.find? p = some x) :
    ∃ pre post, l = pre ++ x :: post ∧ (∀ a ∈ pre, p a = false) ∧ p x = true := by
  induction l with
  | nil => simp at h
  | cons a tl ih =>
    rcases ha : p a with _ | _
    · rw [List.find?_cons_of_neg _ (by simp [ha])] at h
      obtain ⟨pre, post, rfl, hpre, hx⟩ := ih h
      refine ⟨a :: pre, post, rfl, ?_, hx⟩
      intro b hb
      rcases List.mem_cons.mp hb with rfl | hb'
      · exact ha
      · exact hpre b hb'
    · rw [List.find?_cons_of_pos _ ha] at h
      injection h with h'
      subst h'
      exact ⟨[], tl, rfl, by simp, ha⟩

/-! ### `addSet` claim -/

theorem addSet_logs_of_no_match (d : AppData) (u : User) (ex : String) (w r : Int)
    (date sid lid : String) (ts : Int)
    (h : ∀ l ∈ d.logs, logKey u ex date l = false) :
    (addSet d u ex w r date sid lid ts).logs
      = d.logs ++ [⟨lid, ex, u, date, [⟨sid, w, r, ts⟩]⟩] := by
  have hany : d.logs.any (logKey u ex date) = false := by
    rw [List.any_eq_false]
    intro l hl
    simp [h l hl]
  simp [addSet, hany]

theorem addSet_logs_of_match (d : AppData) (u : User) (ex : String) (w r : Int)
    (date sid lid : String) (ts : Int)
    (pre : List WorkoutLog) (log : WorkoutLog) (post : List WorkoutLog)
    (hsplit : d.logs = pre ++ log :: post) (hlog : logKey u ex date log = true)
    (hpre : ∀ l ∈ pre, logKey u ex date l = false) :
    (addSet d u ex w r date sid lid ts).logs
      = pre ++ { log with sets := log.sets ++ [⟨sid, w, r, ts⟩] } :: post := by
  have hany : d.logs.any (logKey u ex date) = true := by
    rw [List.any_eq_true]
    exact ⟨log, by rw [hsplit]; exact List.mem_append_right _ (List.mem_cons_self _ _), hlog⟩
  simp only [addSet, hany, if_true]
  rw [hsplit]
  exact updateFirst_of_first_match _ _ pre log post hpre hlog

/-- C4: `addSet` appends exactly one new set to the (first) existing log
for (user, exerciseId, date) and otherwise appends exactly one new
single-set log; hence two calls on the same key grow one log to two sets,
and a call with a different date appends a second, distinct log. -/
theorem addSet_correct (d : AppData) (u : User) (ex : String) (w r : Int)
    (date sid lid : String) (ts : Int) :
    ((∀ l ∈ d.logs, logKey u ex date l = false) →
      (addSet d u ex w r date sid lid ts).logs
        = d.logs ++ [⟨lid, ex, u, date, [⟨sid, w, r, ts⟩]⟩])
    ∧ (∀ pre log post, d.logs = pre ++ log :: post → logKey u ex date log = true →
        (∀ l ∈ pre, logKey u ex date l = false) →
        (addSet d u ex w r date sid lid ts).logs
          = pre ++ { log with sets := log.sets ++ [⟨sid, w, r, ts⟩] } :: post)
    ∧ (∀ w2 r2 sid2 lid2 ts2, (∀ l ∈ d.logs, logKey u ex date l = false) →
        (addSet (addSet d u ex w r date sid lid ts) u ex w2 r2 date sid2 lid2 ts2).logs
          = d.logs ++ [⟨lid, ex, u, date, [⟨sid, w, r, ts⟩, ⟨sid2, w2, r2, ts2⟩]⟩])
    ∧ (∀ date2 w2 r2 sid2 lid2 ts2, date2 ≠ date →
        (∀ l ∈ d.logs, logKey u ex date l = false) →
        (∀ l ∈ d.logs, logKey u ex date2 l = false) →
        (addSet (addSet d u ex w r date sid lid ts) u ex w2 r2 date2 sid2 lid2 ts2).logs
          = d.logs ++ [⟨lid, ex, u, date, [⟨sid, w, r, ts⟩]⟩,
                       ⟨lid2, ex, u, date2, [⟨sid2, w2, r2, ts2⟩]⟩]) := by
  refine ⟨addSet_logs_of_no_match d u ex w r date sid lid ts,
          addSet_logs_of_match d u ex w r date sid lid ts, ?_, ?_⟩
  · intro w2 r2 sid2 lid2 ts2 h
    have h1 := addSet_logs_of_no_match d u ex w r date sid lid ts h
    have h2 := addSet_logs_of_match (addSet d u ex w r date sid lid ts) u ex w2 r2 date
      sid2 lid2 ts2 d.logs ⟨lid, ex, u, date, [⟨sid, w, r, ts⟩]⟩ [] (by rw [h1])
      (by simp [logKey]) h
    rw [h2]
    rfl
  · intro date2 w2 r2 sid2 lid2 ts2 hdate h hdate2
    have h1 := addSet_logs_of_no_match d u ex w r date sid lid ts h
    have hall2 : ∀ l ∈ (addSet d u ex w r date sid lid ts).logs,
        logKey u ex date2 l = false := by
      intro l hl
      rw [h1] at hl
      rcases List.mem_append.mp hl with hl' | hl'
      · exact hdate2 l hl'
      · rw [List.mem_singleton] at hl'
        subst hl'
        have hne : (date == date2) = false := by
          rw [beq_eq_false_iff_ne]
          exact fun hd => hdate hd.symm
        simp [logKey, hne]
    have h2 := addSet_logs_of_no_match (addSet d u ex w r date sid lid ts) u ex w2 r2
      date2 sid2 lid2 ts2 hall2
    rw [h2, h1]
    simp

/-- Witness for C4: on the empty document, one call creates one single-set
log; a second call on the same key grows it to two sets; a second call on
a different date appends a second log instead. -/
theorem addSet_correct_witness :
    (addSet (AppData.mk [] [] []) .Adam "ex_1" 100 5 "2024-01-01" "s1" "l1" 0).logs
      = [⟨"l1", "ex_1", .Adam, "2024-01-01", [⟨"s1", 100, 5, 0⟩]⟩]
    ∧ (addSet (addSet (AppData.mk [] [] []) .Adam "ex_1" 100 5 "2024-01-01" "s1" "l1" 0)
         .Adam "ex_1" 100 5 "2024-01-01" "s2" "l2" 1).logs
      = [⟨"l1", "ex_1", .Adam, "2024-01-01", [⟨"s1", 100, 5, 0⟩, ⟨"s2", 100, 5, 1⟩]⟩]
    ∧ (addSet (addSet (AppData.mk [] [] []) .Adam "ex_1" 100 5 "2024-01-01" "s1" "l1" 0)
         .Adam "ex_1" 100 5 "2024-01-02" "s2" "l2" 1).logs
      = [⟨"l1", "ex_1", .Adam, "2024-01-01", [⟨"s1", 100, 5, 0⟩]⟩,
         ⟨"l2", "ex_1", .Adam, "2024-01-02", [⟨"s2", 100, 5, 1⟩]⟩] := by
  have h := addSet_correct (AppData.mk [] [] []) .Adam "ex_1" 100 5 "2024-01-01" "s1" "l1" 0
  refine ⟨?_, ?_, ?_⟩
  · simpa using h.1 (by simp)
  · simpa using h.2.2.1 100 5 "s2" "l2" 1 (by simp)
  · simpa using h.2.2.2 "2024-01-02" 100 5 "s2" "l2" 1 (by decide) (by simp) (by simp)

/-! ### `deleteSet` claim -/

theorem find?_of_decomp {α : Type} (p : α → Bool) (pre : List α) (x : α) (post : List α)
    (hpre : ∀ a ∈ pre, p a = false) (hx : p x = true) :
    (pre ++ x :: post).find? p = some x := by
  induction pre with
  | nil => simp [List.find?_cons_of_pos _ hx]
  | cons a tl ih =>
    have ha := hpre a (List.mem_cons_self a tl)
    have htl := ih fun b hb => hpre b (List.mem_cons_of_mem _ hb)
    simp only [List.cons_append]
    rw [List.find?_cons_of_neg _ (by simp [ha])]
    exact htl

theorem deleteSet_logs_of_found (d : AppData) (logId setId : String)
    (pre : List WorkoutLog) (log : WorkoutLog) (post : List WorkoutLog)
    (hsplit : d.logs = pre ++ log :: post) (hid : log.id = logId)
    (hpre : ∀ l ∈ pre, l.id ≠ logId) :
    (deleteSet d logId setId).logs =
      if (log.sets.filter fun s => s.id != setId).isEmpty then
        pre ++ post.filter fun l => l.id != logId
      else
        pre ++ { log with sets := log.sets.filter fun s => s.id != setId } :: post := by
  have hpre' : ∀ l ∈ pre, (l.id == logId) = false := by
    intro l hl
    rw [beq_eq_false_iff_ne]
    exact hpre l hl
  have hfind : d.logs.find? (fun l => l.id == logId) = some log := by
    rw [hsplit]
    exact find?_of_decomp _ pre log post hpre' (by rw [hid]; simp)
  have hupd : updateFirst (fun l => l.id == logId)
      (fun l => { l with sets := log.sets.filter fun s => s.id != setId }) d.logs
        = pre ++ { log with sets := log.sets.filter fun s => s.id != setId } :: post := by
    rw [hsplit]
    exact updateFirst_of_first_match _ _ pre log post hpre' (by rw [hid]; simp)
  simp only [deleteSet, hfind, hupd]
  split
  · rename_i hempty
    simp only [List.filter_append, List.filter_cons]
    have h1 : pre.filter (fun l => l.id != logId) = pre :=
      List.filter_eq_self.mpr fun l hl => by
        rw [bne_iff_ne]
        exact hpre l hl
    have h2 : (({ log with sets := log.sets.filter fun s => s.id != setId }
        : WorkoutLog).id != logId) = false := by
      simp [hid]
    rw [h1, h2]
    simp
  · rfl

/-- C5: `deleteSet` is a no-op when no log carries `logId`; otherwise it
filters the named set out of the (first) log with that id and, when that
log's set list becomes empty, removes every log with that id from the
document — so on a document where no log has an empty set list, none has
one afterwards either. -/
theorem deleteSet_correct (d : AppData) (logId setId : String) :
    ((∀ l ∈ d.logs, l.id ≠ logId) → deleteSet d logId setId = d)
    ∧ (∀ pre log post, d.logs = pre ++ log :: post → log.id = logId →
        (∀ l ∈ pre, l.id ≠ logId) →
        (deleteSet d logId setId).logs =
          if (log.sets.filter fun s => s.id != setId).isEmpty then
            pre ++ post.filter fun l => l.id != logId
          else
            pre ++ { log with sets := log.sets.filter fun s => s.id != setId } :: post)
    ∧ ((∀ l ∈ d.logs, l.sets ≠ []) →
        ∀ l ∈ (deleteSet d logId setId).logs, l.sets ≠ []) := by
  refine ⟨?_, fun pre log post h1 h2 h3 => deleteSet_logs_of_found d logId setId
    pre log post h1 h2 h3, ?_⟩
  · intro h
    have hfind : d.logs.find? (fun l => l.id == logId) = none := by
      rw [List.find?_eq_none]
      intro l hl
      simp [h l hl]
    simp [deleteSet, hfind]
  · intro hinv
    cases hfind : d.logs.find? (fun l => l.id == logId) with
    | none =>
      simp only [deleteSet, hfind]
      exact hinv
    | some log =>
      obtain ⟨pre, post, hsplit, hpre, hx⟩ := find?_decomp hfind
      have hid : log.id = logId := by
        have := hx
        rwa [beq_iff_eq] at this
      have hpre' : ∀ l ∈ pre, l.id ≠ logId := fun l hl => by
        have := hpre l hl
        rwa [beq_eq_false_iff_ne] at this
      have hres := deleteSet_logs_of_found d logId setId pre log post hsplit hid hpre'
      intro l hl
      rw [hres] at hl
      split at hl
      · rename_i hempty
        rcases List.mem_append.mp hl with hl' | hl'
        · exact hinv l (by rw [hsplit]; exact List.mem_append_left _ hl')
        · have := List.mem_of_mem_filter hl'
          exact hinv l (by
            rw [hsplit]
            exact List.mem_append_right _ (List.mem_cons_of_mem _ this))
      · rename_i hempty
        rcases List.mem_append.mp hl with hl' | hl'
        · exact hinv l (by rw [hsplit]; exact List.mem_append_left _ hl')
        · rcases List.mem_cons.mp hl' with rfl | hl''
          · intro hnil
            have h0 : (log.sets.filter fun s => s.id != setId) = [] := hnil
            rw [h0] at hempty
            simp at hempty
          · exact hinv l (by
              rw [hsplit]
              exact List.mem_append_right _ (List.mem_cons_of_mem _ hl''))

/-- Witness for C5: deleting the only set of the only log removes the log;
an unknown log id leaves the document untouched. -/
theorem deleteSet_correct_witness :
    (deleteSet oneLogDoc "l1" "s1").logs = []
    ∧ deleteSet oneLogDoc "zzz" "s1" = oneLogDoc := by
  constructor
  · have h := (deleteSet_correct oneLogDoc "l1" "s1").2.1 []
      ⟨"l1", "adam_ex_1", .Adam, "2024-01-01", [⟨"s1", 100, 5, 0⟩]⟩ [] rfl rfl (by simp)
    simpa using h
  · exact (deleteSet_correct oneLogDoc "zzz" "s1").1 (by decide)

/-! ### Exercise-catalog claims -/

/-- C9: `deleteExercise` removes from the named user's catalog exactly the
exercises carrying the given id and leaves the `logs` sequence untouched —
logs referencing the removed id persist (with a dangling `exerciseId`). -/
theorem deleteExercise_correct (d : AppData) (id : String) (u : User) :
    (deleteExercise d id u).logs = d.logs
    ∧ (∀ e, e ∈ getExercisesForUser (deleteExercise d id u) u ↔
        e ∈ getExercisesForUser d u ∧ e.id ≠ id) := by
  cases u <;>
    simp [deleteExercise, getExercisesForUser, List.mem_filter, bne_iff_ne]

/-- C10: each catalog mutation touches only the named user's catalog:
`saveExercise` and `deleteExercise` leave the other user's exercise
sequence unchanged, and both leave `logs` unchanged. -/
theorem catalogMutation_frame (d : AppData) (exercise : Exercise) (id : String) :
    (saveExercise d exercise .Adam).eliaExercises = d.eliaExercises
    ∧ (saveExercise d exercise .Adam).logs = d.logs
    ∧ (saveExercise d exercise .Elia).adamExercises = d.adamExercises
    ∧ (saveExercise d exercise .Elia).logs = d.logs
    ∧ (deleteExercise d id .Adam).eliaExercises = d.eliaExercises
    ∧ (deleteExercise d id .Adam).logs = d.logs
    ∧ (deleteExercise d id .Elia).adamExercises = d.adamExercises
    ∧ (deleteExercise d id .Elia).logs = d.logs := by
  refine ⟨?_, ?_, ?_, ?_, ?_, ?_, ?_, ?_⟩ <;> simp [saveExercise, deleteExercise]

/-! ### Comparison-query claim -/

/-- C8 (amended): `getLogsForComparison` resolves, independently per user,
the first exercise whose name equals the query (so a resolved exercise
always bears the queried name), collects their ids *except falsy
(empty-string) ids*, and returns exactly the logs whose `exerciseId` lies
in that set. -/
theorem getLogsForComparison_correct (d : AppData) (exerciseName : String) :
    (∀ l, l ∈ getLogsForComparison d exerciseName ↔
      (l ∈ d.logs ∧ ∃ e : Exercise,
        (d.adamExercises.find? (fun x => x.name == exerciseName) = some e ∨
         d.eliaExercises.find? (fun x => x.name == exerciseName) = some e) ∧
        e.id ≠ "" ∧ l.exerciseId = e.id))
    ∧ (∀ e : Exercise, d.adamExercises.find? (fun x => x.name == exerciseName) = some e →
        e.name = exerciseName)
    ∧ (∀ e : Exercise, d.eliaExercises.find? (fun x => x.name == exerciseName) = some e →
        e.name = exerciseName) := by
  refine ⟨?_, ?_, ?_⟩
  · intro l
    unfold getLogsForComparison
    rw [List.mem_filter]
    cases hA : d.adamExercises.find? (fun x => x.name == exerciseName) with
    | none =>
      cases hE : d.eliaExercises.find? (fun x => x.name == exerciseName) with
      | none => simp [hA, hE]
      | some b =>
        by_cases hb : b.id = ""
        · simp [hA, hE, hb]
        · simp [hA, hE, hb]
    | some a =>
      cases hE : d.eliaExercises.find? (fun x => x.name == exerciseName) with
      | none =>
        by_cases ha : a.id = ""
        · simp [hA, hE, ha]
        · simp [hA, hE, ha]
      | some b =>
        by_cases ha : a.id = "" <;> by_cases hb : b.id = ""
        · simp [hA, hE, ha, hb]
          intro _ x hx hxid
          rcases hx with rfl | rfl <;> contradiction
        · simp [hA, hE, ha, hb]
          intro _
          constructor
          · intro h
            exact ⟨b, Or.inr rfl, hb, h⟩
          · rintro ⟨e, rfl | rfl, hne, hid⟩
            · exact absurd ha hne
            · exact hid
        · simp [hA, hE, ha, hb]
          intro _
          constructor
          · intro h
            exact ⟨a, Or.inl rfl, ha, h⟩
          · rintro ⟨e, rfl | rfl, hne, hid⟩
            · exact hid
            · exact absurd hb hne
        · simp [hA, hE, ha, hb, or_and_right, exists_or]
  · intro e he
    have := List.find?_some he
    rwa [beq_iff_eq] at this
  · intro e he
    have := List.find?_some he
    rwa [beq_iff_eq] at this

/-- C8 counterexample: the claim as stated returns every log whose
`exerciseId` is in the set of ids of the resolved exercises.  In
`emptyIdDoc` the resolved Adam exercise has id `""` and a log carries
exactly that `exerciseId`, yet the query returns nothing — JavaScript
`filter(Boolean)` silently drops the falsy empty-string id. -/
theorem getLogsForComparison_drops_empty_id :
    (emptyIdDoc.adamExercises.find? fun e => e.name == "Squat")
        = some { id := "", name := "Squat", category := "Legs" }
    ∧ emptyIdDoc.logs.length = 1
    ∧ (∀ l ∈ emptyIdDoc.logs, l.exerciseId = "")
    ∧ getLogsForComparison emptyIdDoc "Squat" = [] := by decide

/-- Witness for C8's amended theorem: on `compareDoc`, Adam's "Squat" log
is returned by the comparison query, and the resolved exercise indeed
bears the queried name. -/
theorem getLogsForComparison_correct_witness :
    (⟨"la", "adam_sq", .Adam, "2024-01-01", [⟨"sa", 100, 5, 0⟩]⟩ : WorkoutLog)
      ∈ getLogsForComparison compareDoc "Squat"
    ∧ ({ id := "adam_sq", name := "Squat", category := "Legs" } : Exercise).name
        = "Squat" := by
  have h := getLogsForComparison_correct compareDoc "Squat"
  constructor
  · exact (h.1 _).mpr ⟨by decide, ⟨"adam_sq", "Squat", "Legs"⟩,
      Or.inl (by decide), by decide, rfl⟩
  · exact h.2.1 ⟨"adam_sq", "Squat", "Legs"⟩ (by decide)
